import Mathlib

/-!
Verification development for the hoa-js language middleware.

The first section embeds the structured header-value parser
(`parseAccept`).  Its implementation file `src/utils.ts` is not part of
the snapshot (only the middleware that imports it and its test suite
are), so this part is modelled from the specification, section 4.1.
The second section embeds `src/index.ts` (detection strategies,
normalization, negotiation pipeline, validation, middleware).
-/

/-- Double-quote character used by the quote-aware scanner. -/
def dquoteChar : Char := Char.ofNat 34

/-- Single-quote character used by the quote-aware scanner. -/
def squoteChar : Char := Char.ofNat 39

/-- Whitespace recognized by the header parser: space, tab, newline. -/
def isWsp (c : Char) : Bool := c == ' ' || c == '\t' || c == '\n'

/-- Trim leading and trailing parser whitespace from a character list. -/
def trimWs (l : List Char) : List Char :=
  ((l.dropWhile isWsp).reverse.dropWhile isWsp).reverse

/-- Modelled from the spec: the quote-aware scanner of the missing
`src/utils.ts`.  While scanning, a double or single quote toggles an
inside-quoted-span state (each quote paired with the next occurrence of
the same quote character); the delimiter does not terminate the current
token while inside a quoted span; quoted content is carried through
verbatim, quotes included.  The first argument of the recursion is the
open-quote state, the last is the token accumulated so far. -/
def splitQA (delim : Char) : Option Char → List Char → List Char → List (List Char)
  | _, [], cur => [cur]
  | some qc, c :: cs, cur =>
      if c = qc then splitQA delim none cs (cur ++ [c])
      else splitQA delim (some qc) cs (cur ++ [c])
  | none, c :: cs, cur =>
      if c = dquoteChar ∨ c = squoteChar then splitQA delim (some c) cs (cur ++ [c])
      else if c = delim then cur :: splitQA delim none cs []
      else splitQA delim none cs (cur ++ [c])

/-- Split a character list on a delimiter, quote-aware, starting outside
any quoted span with an empty current token. -/
def splitQuoteAware (delim : Char) (l : List Char) : List (List Char) :=
  splitQA delim none l []

/-- Value of a quality string interpreted as a number: a finite rational,
one of the two infinities, or not-a-number. -/
inductive QNum where
  | fin (x : ℚ)
  | posInf
  | negInf
  | nan
deriving DecidableEq

/-- Digits to a natural number, most significant first. -/
def digitsToNat (ds : List Char) : Nat :=
  ds.foldl (fun n c => 10 * n + (c.toNat - '0'.toNat)) 0

/-- Modelled from the spec: numeric interpretation used by the quality
resolver of the missing `src/utils.ts`: an optional sign, then either
the literal infinity token or decimal digits with at most one point;
anything else (including the not-a-number token) is not a number. -/
def interpretNumber (cs : List Char) : QNum :=
  let signed : Bool × List Char :=
    match cs with
    | '-' :: r => (true, r)
    | '+' :: r => (false, r)
    | r => (false, r)
  let neg := signed.1
  let rest := signed.2
  if rest = ['I', 'n', 'f', 'i', 'n', 'i', 't', 'y'] then
    if neg then QNum.negInf else QNum.posInf
  else
    let intPart := rest.takeWhile Char.isDigit
    let afterInt := rest.dropWhile Char.isDigit
    match afterInt with
    | [] =>
        if intPart.isEmpty then QNum.nan
        else
          let n : Int := (digitsToNat intPart : Int)
          QNum.fin (mkRat (if neg then -n else n) 1)
    | '.' :: frac =>
        if frac.all Char.isDigit && (!intPart.isEmpty || !frac.isEmpty) then
          let n : Int := (digitsToNat intPart : Int) * 10 ^ frac.length + (digitsToNat frac : Int)
          QNum.fin (mkRat (if neg then -n else n) (10 ^ frac.length))
        else QNum.nan
    | _ => QNum.nan

/-- Modelled from the spec: the quality resolver of the missing
`src/utils.ts`.  No accepted q parameter or an empty accepted value
gives quality 1; a value that cannot be interpreted as a number gives 1;
otherwise the interpreted number is clamped into the closed interval
from 0 to 1, positive infinity becoming 1 and negative infinity 0. -/
def resolveQuality (raw : Option String) : ℚ :=
  match raw with
  | none => 1
  | some v =>
      if v = "" then 1
      else
        match interpretNumber v.data with
        | QNum.nan => 1
        | QNum.posInf => 1
        | QNum.negInf => 0
        | QNum.fin x => max 0 (min 1 x)

/-- One parsed entry of a structured header value. -/
structure AcceptEntry where
  type : String
  params : List (String × String)
  q : ℚ
deriving DecidableEq

/-- Modelled from the spec: a parameter chunk is accepted only when it
contains exactly one equals sign and its trimmed key is non-empty; the
trimmed text before the equals sign is the key, the trimmed text after
it is the value. -/
def parseParamChunk (chunk : List Char) : Option (String × String) :=
  if chunk.count '=' ≠ 1 then none
  else
    let key := trimWs (chunk.takeWhile (fun c => c ≠ '='))
    let val := trimWs ((chunk.dropWhile (fun c => c ≠ '=')).drop 1)
    if key.isEmpty then none else some (String.mk key, String.mk val)

/-- Record an accepted key/value pair into the parameter mapping: an
existing key keeps its position and its value is replaced (last valid
occurrence wins, keys case-sensitive); a new key is appended. -/
def upsertParam (m : List (String × String)) (kv : String × String) :
    List (String × String) :=
  if m.any (fun p => p.1 == kv.1) then
    m.map (fun p => if p.1 = kv.1 then (p.1, kv.2) else p)
  else m ++ [kv]

/-- Look a key up in the parameter mapping. -/
def lookupParam (m : List (String × String)) (k : String) : Option String :=
  (m.find? (fun p => p.1 == k)).map (fun p => p.2)

/-- Modelled from the spec: parse one top-level entry of the missing
`src/utils.ts` parser: split on semicolons quote-aware, trim the leading
type token, accept the parameter chunks, and derive the quality from the
accepted q parameter. -/
def parseEntry (chunk : List Char) : AcceptEntry :=
  match splitQuoteAware ';' chunk with
  | [] => { type := "", params := [], q := 1 }
  | t :: ps =>
      let params := (ps.filterMap parseParamChunk).foldl upsertParam []
      { type := String.mk (trimWs t)
        params := params
        q := resolveQuality (lookupParam params "q") }

/-- Modelled from the spec: the entry list of the missing `src/utils.ts`
parser in original left-to-right order of appearance, before sorting:
the input is split on commas quote-aware, chunks that trim to nothing
(consecutive delimiters) produce no entry, an absent or empty input
produces no entry. -/
def parseAcceptUnsorted (header : Option String) : List AcceptEntry :=
  match header with
  | none => []
  | some h =>
      (((splitQuoteAware ',' h.data).filter
        (fun c => !(trimWs c).isEmpty)).map parseEntry)

/-- Insert an entry into a quality-descending list, placing it before
the first element whose quality is not larger, so that an earlier entry
always precedes later entries of equal quality. -/
def insortEntry (x : AcceptEntry) : List AcceptEntry → List AcceptEntry
  | [] => [x]
  | y :: ys => if x.q < y.q then y :: insortEntry x ys else x :: y :: ys

/-- Stable insertion sort of entries by descending quality. -/
def sortEntries : List AcceptEntry → List AcceptEntry
  | [] => []
  | x :: xs => insortEntry x (sortEntries xs)

/-- Modelled from the spec: the header-value parser of the missing
`src/utils.ts`: the entries in order of appearance, stably sorted by
descending quality. -/
def parseAccept (header : Option String) : List AcceptEntry :=
  sortEntries (parseAcceptUnsorted header)

/-!
Embedding of `src/index.ts`.  JavaScript exceptions are modelled with
`Except Unit`, the asynchronous collaborator calls as plain function
fields of the context, and the cookie-write side effect as a trace of
attempted writes returned by the pipeline.
-/

/-- Candidate value shapes reaching `normalizeLanguage`: absent
(`undefined`), `null`, a scalar string, or an array of strings. -/
inductive JsVal where
  | undef
  | null
  | str (s : String)
  | arr (xs : List String)
deriving DecidableEq

/-- Result shape of the cookie read collaborator: a string, absent, or
the explicit `false` marker for a missing cookie. -/
inductive CookieVal where
  | str (s : String)
  | undef
  | fls
deriving DecidableEq

/-- Shape of the `caches` option: an array of cache kinds, a boolean
(the documented `false`), or a non-array truthy value such as a string,
as exercised by the tests. -/
inductive CachesVal where
  | arr (xs : List String)
  | bool (b : Bool)
  | str (s : String)
deriving DecidableEq

/-- JavaScript truthiness of a `caches` value: arrays are always truthy,
a string is truthy when non-empty. -/
def cachesTruthy : CachesVal → Bool
  | CachesVal.arr _ => true
  | CachesVal.bool b => b
  | CachesVal.str s => s ≠ ""

/-- Condition under which `cacheLanguage` actually writes: the `caches`
value is array-shaped and contains the cookie cache kind. -/
def cachesArrayWithCookie : CachesVal → Bool
  | CachesVal.arr xs => xs.contains "cookie"
  | _ => false

/-- Detector options of `src/index.ts`.  The strategy order is kept as
raw strings so that unknown identifiers are representable, and the path
index as an integer so that negative values are representable; the
conversion hook may raise, hence `Except`. -/
structure DetectorOptions where
  order : List String
  lookupQueryString : String
  lookupCookie : String
  lookupFromPathIndex : Int
  lookupFromHeaderKey : String
  caches : CachesVal
  ignoreCase : Bool
  fallbackLanguage : String
  supportedLanguages : List String
  convertDetectedLanguage : Option (String → Except Unit String)
  debug : Bool

/-- Request/response context collaborator.  The presence flags model
whether the cookie plugin installed `getCookie` and `setCookie`; calls
that may reject are `Except`-valued. -/
structure Ctx where
  query : String → JsVal
  getHeader : String → Except Unit (Option String)
  pathname : String
  hasGetCookie : Bool
  getCookie : String → Except Unit CookieVal
  hasSetCookie : Bool
  setCookie : String → String → Except Unit Unit

/-- Whitespace removed by the JavaScript string trim. -/
def isJsWsp (c : Char) : Bool := c == ' ' || c == '\t' || c == '\n' || c == '\r'

/-- JavaScript-style trim of a string. -/
def jsTrim (s : String) : String :=
  String.mk (((s.data.dropWhile isJsWsp).reverse.dropWhile isJsWsp).reverse)

/-- Character-wise lower-casing used for the ignore-case comparison. -/
def lowerString (s : String) : String := String.mk (s.data.map Char.toLower)

/-- The `normalizeLanguage` function of `src/index.ts`: falsy or
array-shaped candidates are rejected; the candidate is trimmed, passed
through the optional conversion hook (a hook failure rejects), folded
for case when configured, matched against the equally folded supported
set and, on a match, the entry as stored in the supported set is
returned; the returned match itself goes through a final truthiness
check, so a matched empty entry still comes out absent. -/
def normalizeLanguage (lang : JsVal) (o : DetectorOptions) : Option String :=
  match lang with
  | JsVal.undef => none
  | JsVal.null => none
  | JsVal.arr _ => none
  | JsVal.str s =>
      if s = "" then none
      else
        let t := jsTrim s
        let conv : Except Unit String :=
          match o.convertDetectedLanguage with
          | none => Except.ok t
          | some f => f t
        match conv with
        | Except.error _ => none
        | Except.ok normalized =>
            let compLang := if o.ignoreCase then lowerString normalized else normalized
            let compSupported := o.supportedLanguages.map
              (fun l => if o.ignoreCase then lowerString l else l)
            match compSupported.find? (fun l => l == compLang) with
            | none => none
            | some matched =>
                if matched = "" then none
                else o.supportedLanguages[compSupported.indexOf matched]?

/-- The `detectFromQuery` strategy of `src/index.ts`. -/
def detectFromQuery (ctx : Ctx) (o : DetectorOptions) : Except Unit (Option String) :=
  Except.ok (normalizeLanguage (ctx.query o.lookupQueryString) o)

/-- The `detectFromCookie` strategy of `src/index.ts`: calling an absent
cookie accessor raises; an explicit `false` cookie result is absent. -/
def detectFromCookie (ctx : Ctx) (o : DetectorOptions) : Except Unit (Option String) :=
  if !ctx.hasGetCookie then Except.error ()
  else
    match ctx.getCookie o.lookupCookie with
    | Except.error _ => Except.error ()
    | Except.ok CookieVal.fls => Except.ok none
    | Except.ok CookieVal.undef => Except.ok (normalizeLanguage JsVal.undef o)
    | Except.ok (CookieVal.str s) => Except.ok (normalizeLanguage (JsVal.str s) o)

/-- Walk of the quality-sorted header candidates in `detectFromHeader`:
the first candidate whose normalization is truthy is returned. -/
def firstNormalized (langs : List String) (o : DetectorOptions) : Option String :=
  match langs with
  | [] => none
  | lang :: rest =>
      match normalizeLanguage (JsVal.str lang) o with
      | some n => if n = "" then firstNormalized rest o else some n
      | none => firstNormalized rest o

/-- The `detectFromHeader` strategy of `src/index.ts`: a falsy header
value is absent; otherwise the header is parsed with `parseAccept` and
the candidates are walked in quality order. -/
def detectFromHeader (ctx : Ctx) (o : DetectorOptions) : Except Unit (Option String) :=
  match ctx.getHeader o.lookupFromHeaderKey with
  | Except.error _ => Except.error ()
  | Except.ok none => Except.ok none
  | Except.ok (some h) =>
      if h = "" then Except.ok none
      else Except.ok (firstNormalized ((parseAccept (some h)).map (fun e => e.type)) o)

/-- Plain character split used for the request path. -/
def splitChar (delim : Char) : List Char → List (List Char)
  | [] => [[]]
  | c :: cs =>
      if c = delim then [] :: splitChar delim cs
      else
        match splitChar delim cs with
        | [] => [[c]]
        | t :: ts => (c :: t) :: ts

/-- The `detectFromPath` strategy of `src/index.ts`: the path is split
on slashes, empty segments are discarded, and the segment at the
configured index (absent when out of bounds or the index is negative)
is normalized. -/
def detectFromPath (ctx : Ctx) (o : DetectorOptions) : Except Unit (Option String) :=
  let segs := ((splitChar '/' ctx.pathname.data).filter
    (fun s => !s.isEmpty)).map String.mk
  let seg : JsVal :=
    if o.lookupFromPathIndex < 0 then JsVal.undef
    else
      match segs[o.lookupFromPathIndex.toNat]? with
      | some s => JsVal.str s
      | none => JsVal.undef
  Except.ok (normalizeLanguage seg o)

/-- Strategy identifiers of the `detectors` table of `src/index.ts`, in
object-key order. -/
def detectorNames : List String := ["querystring", "cookie", "header", "path"]

/-- Dispatch over the `detectors` table: an unknown identifier means
calling an absent entry, which raises. -/
def runDetector (name : String) (ctx : Ctx) (o : DetectorOptions) :
    Except Unit (Option String) :=
  if name = "querystring" then detectFromQuery ctx o
  else if name = "cookie" then detectFromCookie ctx o
  else if name = "header" then detectFromHeader ctx o
  else if name = "path" then detectFromPath ctx o
  else Except.error ()

/-- The strategy loop of `detectLanguage` in `src/index.ts`: a raising
strategy is skipped, a truthy (non-empty) normalized result
short-circuits, anything else moves on.  The result is the detected
language, or none when the loop exhausts. -/
def detectLoop (ctx : Ctx) (o : DetectorOptions) : List String → Option String
  | [] => none
  | name :: rest =>
      match runDetector name ctx o with
      | Except.error _ => detectLoop ctx o rest
      | Except.ok none => detectLoop ctx o rest
      | Except.ok (some s) => if s = "" then detectLoop ctx o rest else some s

/-- The `cacheLanguage` function of `src/index.ts`, returning the trace
of attempted cookie writes: nothing unless `caches` is an array
containing the cookie kind; otherwise one write of the language under
the configured cookie key is attempted and its failure is caught and
discarded. -/
def cacheLanguage (ctx : Ctx) (language : String) (o : DetectorOptions) :
    List (String × String) :=
  if cachesArrayWithCookie o.caches then
    match ctx.setCookie o.lookupCookie language with
    | Except.ok _ => [(o.lookupCookie, language)]
    | Except.error _ => [(o.lookupCookie, language)]
  else []

/-- Result of one run of the negotiation pipeline: the chosen language,
whether it was actively detected, and the trace of attempted cookie
writes. -/
structure DetectResult where
  language : String
  detected : Bool
  writes : List (String × String)
deriving DecidableEq

/-- The `detectLanguage` pipeline of `src/index.ts`: run the strategy
loop over the configured order, fall back when nothing was detected,
and attempt the cache write only when a language was detected and the
`caches` value is truthy. -/
def detectLanguage (ctx : Ctx) (o : DetectorOptions) : DetectResult :=
  let detectedLang := detectLoop ctx o o.order
  let finalLang := detectedLang.getD o.fallbackLanguage
  { language := finalLang
    detected := detectedLang.isSome
    writes :=
      if detectedLang.isSome && cachesTruthy o.caches then
        cacheLanguage ctx finalLang o
      else [] }

/-- The `validateOptions` check of `src/index.ts`. -/
def validateOptions (o : DetectorOptions) : Except String Unit :=
  if o.fallbackLanguage ∉ o.supportedLanguages then
    Except.error "Fallback language must be included in supported languages"
  else if o.lookupFromPathIndex < 0 then
    Except.error "Path index must be non-negative"
  else if ¬ (∀ d ∈ o.order, d ∈ detectorNames) then
    Except.error "Invalid detector type in order array"
  else Except.ok ()

/-- The `languageMiddleware` body of `src/index.ts`: the cookie plugin
check runs first on every request and throws a 500 when either cookie
capability is missing; only then is the pipeline run. -/
def languageMiddleware (o : DetectorOptions) (ctx : Ctx) : Except Nat DetectResult :=
  if !ctx.hasGetCookie || !ctx.hasSetCookie then Except.error 500
  else Except.ok (detectLanguage ctx o)

/-- The `DEFAULT_OPTIONS` object of `src/index.ts`. -/
def DEFAULT_OPTIONS : DetectorOptions :=
  { order := ["querystring", "cookie", "header"]
    lookupQueryString := "lang"
    lookupCookie := "language"
    lookupFromHeaderKey := "accept-language"
    lookupFromPathIndex := 0
    caches := CachesVal.arr ["cookie"]
    ignoreCase := true
    fallbackLanguage := "en"
    supportedLanguages := ["en"]
    convertDetectedLanguage := none
    debug := false }

/-- User-supplied options: every recognized key may be present or
absent, mirroring the partial options object spread over the defaults. -/
structure UserOptions where
  order : Option (List String)
  lookupQueryString : Option String
  lookupCookie : Option String
  lookupFromPathIndex : Option Int
  lookupFromHeaderKey : Option String
  caches : Option CachesVal
  ignoreCase : Option Bool
  fallbackLanguage : Option String
  supportedLanguages : Option (List String)
  convertDetectedLanguage : Option (Option (String → Except Unit String))
  debug : Option Bool

/-- Empty user options object. -/
def noUserOptions : UserOptions :=
  { order := none, lookupQueryString := none, lookupCookie := none
    lookupFromPathIndex := none, lookupFromHeaderKey := none, caches := none
    ignoreCase := none, fallbackLanguage := none, supportedLanguages := none
    convertDetectedLanguage := none, debug := none }

/-- The option spread of the `language` constructor: user keys override
the defaults. -/
def mergeOptions (u : UserOptions) : DetectorOptions :=
  { order := u.order.getD DEFAULT_OPTIONS.order
    lookupQueryString := u.lookupQueryString.getD DEFAULT_OPTIONS.lookupQueryString
    lookupCookie := u.lookupCookie.getD DEFAULT_OPTIONS.lookupCookie
    lookupFromPathIndex := u.lookupFromPathIndex.getD DEFAULT_OPTIONS.lookupFromPathIndex
    lookupFromHeaderKey := u.lookupFromHeaderKey.getD DEFAULT_OPTIONS.lookupFromHeaderKey
    caches := u.caches.getD DEFAULT_OPTIONS.caches
    ignoreCase := u.ignoreCase.getD DEFAULT_OPTIONS.ignoreCase
    fallbackLanguage := u.fallbackLanguage.getD DEFAULT_OPTIONS.fallbackLanguage
    supportedLanguages := u.supportedLanguages.getD DEFAULT_OPTIONS.supportedLanguages
    convertDetectedLanguage := u.convertDetectedLanguage.getD none
    debug := u.debug.getD DEFAULT_OPTIONS.debug }

/-- The `language` middleware constructor of `src/index.ts`: merge the
options, validate them, and only on success hand out the per-request
middleware; a validation failure is thrown before any request is
processed. -/
def language (u : UserOptions) : Except String (Ctx → Except Nat DetectResult) :=
  match validateOptions (mergeOptions u) with
  | Except.error e => Except.error e
  | Except.ok _ => Except.ok (languageMiddleware (mergeOptions u))

/-- Success test for an `Except` value. -/
def isOkE {ε α : Type} : Except ε α → Bool
  | Except.ok _ => true
  | Except.error _ => false

/-- Case folding applied to both sides of the supported-set comparison
in `normalizeLanguage`. -/
def foldCase (o : DetectorOptions) (s : String) : String :=
  if o.ignoreCase then lowerString s else s

/-- The candidate value that `normalizeLanguage` compares against the
supported set: the trimmed candidate, sent through the conversion hook
when one is configured and succeeds. -/
def convertedCandidate (o : DetectorOptions) (s : String) : String :=
  match o.convertDetectedLanguage with
  | none => jsTrim s
  | some f =>
      match f (jsTrim s) with
      | Except.ok v => v
      | Except.error _ => jsTrim s

/-- Options fixture used by concrete witnesses: three supported
languages over the defaults. -/
def fixtureOpts : DetectorOptions :=
  { DEFAULT_OPTIONS with supportedLanguages := ["en", "fr", "es"] }

/-- Context fixture used by concrete witnesses: a request carrying the
query parameter lang=fr, no header, no cookie value, an installed
cookie plugin, and a short path. -/
def fixtureCtx : Ctx :=
  { query := fun k => if k = "lang" then JsVal.str "fr" else JsVal.undef
    getHeader := fun _ => Except.ok none
    pathname := "/es/test"
    hasGetCookie := true
    getCookie := fun _ => Except.ok CookieVal.undef
    hasSetCookie := true
    setCookie := fun _ _ => Except.ok () }

/-- Context fixture whose cookie read capability is missing. -/
def fixtureCtxNoPlugin : Ctx := { fixtureCtx with hasGetCookie := false }

/-- Options fixture that never mentions cookies: querystring strategy
only and caching disabled. -/
def fixtureOptsNoCookie : DetectorOptions :=
  { fixtureOpts with order := ["querystring"], caches := CachesVal.bool false }

/-- Hook fixture that always raises. -/
def errHook : String → Except Unit String := fun _ => Except.error ()

/-- Hook fixture converting the empty candidate into the name en, as a
configured conversion hook may. -/
def emptyToEnHook : String → Except Unit String :=
  fun s => if s = "" then Except.ok "en" else Except.ok s

/-- Options fixture carrying that hook over the defaults. -/
def fixtureOptsEmptyHook : DetectorOptions :=
  { DEFAULT_OPTIONS with convertDetectedLanguage := some emptyToEnHook }

/-- Concrete header fixture whose parameter value is wrapped in single
quotes and contains a semicolon. -/
def squoteHeader : String :=
  String.mk ("type;d=".data ++ [squoteChar] ++ "semi;colon".data ++ [squoteChar])

/-- The expected verbatim single-quoted parameter value of that
fixture. -/
def squoteValue : String :=
  String.mk ([squoteChar] ++ "semi;colon".data ++ [squoteChar])

/-- User options fixture whose fallback is not among the supported
languages. -/
def fixtureBadOptions : UserOptions :=
  { noUserOptions with fallbackLanguage := some "de", supportedLanguages := some ["en", "fr"] }

/-!
Helper lemmas about the parser model.
-/

theorem resolveQuality_mem_unit (raw : Option String) :
    0 ≤ resolveQuality raw ∧ resolveQuality raw ≤ 1 := by
  cases raw with
  | none => simp [resolveQuality]
  | some v =>
      by_cases hv : v = ""
      · simp [resolveQuality, hv]
      · cases h : interpretNumber v.data with
        | fin x =>
            simp only [resolveQuality, hv, if_false, h]
            exact ⟨le_max_left 0 _, max_le (by norm_num) (min_le_left 1 x)⟩
        | posInf => simp [resolveQuality, hv, h]
        | negInf => simp [resolveQuality, hv, h]
        | nan => simp [resolveQuality, hv, h]

theorem mem_insortEntry {y x : AcceptEntry} {l : List AcceptEntry} :
    y ∈ insortEntry x l ↔ y = x ∨ y ∈ l := by
  induction l with
  | nil => simp [insortEntry]
  | cons z zs ih =>
      by_cases h : x.q < z.q
      · simp only [insortEntry, if_pos h, List.mem_cons, ih]
        tauto
      · simp [insortEntry, if_neg h, List.mem_cons]

theorem mem_sortEntries {y : AcceptEntry} {l : List AcceptEntry} :
    y ∈ sortEntries l ↔ y ∈ l := by
  induction l with
  | nil => simp [sortEntries]
  | cons x xs ih =>
      simp only [sortEntries, mem_insortEntry, ih, List.mem_cons]

theorem pairwise_insortEntry {x : AcceptEntry} {l : List AcceptEntry}
    (hl : l.Pairwise (fun a b => b.q ≤ a.q)) :
    (insortEntry x l).Pairwise (fun a b => b.q ≤ a.q) := by
  induction l with
  | nil => simp [insortEntry]
  | cons z zs ih =>
      rcases List.pairwise_cons.mp hl with ⟨hz, hzs⟩
      by_cases h : x.q < z.q
      · simp only [insortEntry, if_pos h]
        refine List.pairwise_cons.mpr ⟨?_, ih hzs⟩
        intro b hb
        rcases mem_insortEntry.mp hb with rfl | hb
        · exact le_of_lt h
        · exact hz b hb
      · simp only [insortEntry, if_neg h]
        refine List.pairwise_cons.mpr ⟨?_, hl⟩
        intro b hb
        rcases List.mem_cons.mp hb with rfl | hb
        · exact not_lt.mp h
        · exact le_trans (hz b hb) (not_lt.mp h)

theorem pairwise_sortEntries (l : List AcceptEntry) :
    (sortEntries l).Pairwise (fun a b => b.q ≤ a.q) := by
  induction l with
  | nil => simp [sortEntries]
  | cons x xs ih => exact pairwise_insortEntry ih

theorem filter_insortEntry (x : AcceptEntry) (l : List AcceptEntry) (c : ℚ) :
    (insortEntry x l).filter (fun e => decide (e.q = c)) =
      if x.q = c then x :: l.filter (fun e => decide (e.q = c))
      else l.filter (fun e => decide (e.q = c)) := by
  induction l with
  | nil => by_cases hx : x.q = c <;> simp [insortEntry, hx]
  | cons z zs ih =>
      by_cases h : x.q < z.q
      · have hins : insortEntry x (z :: zs) = z :: insortEntry x zs := by
          simp [insortEntry, h]
        rw [hins]
        by_cases hz : z.q = c <;> by_cases hx : x.q = c
        · exfalso; rw [hx, hz] at h; exact lt_irrefl c h
        all_goals simp [List.filter_cons, hz, hx, ih]
      · have hins : insortEntry x (z :: zs) = x :: z :: zs := by
          simp [insortEntry, h]
        rw [hins]
        by_cases hx : x.q = c <;> simp [List.filter_cons, hx]

theorem filter_sortEntries (l : List AcceptEntry) (c : ℚ) :
    (sortEntries l).filter (fun e => decide (e.q = c)) =
      l.filter (fun e => decide (e.q = c)) := by
  induction l with
  | nil => rfl
  | cons x xs ih =>
      simp only [sortEntries]
      rw [filter_insortEntry]
      by_cases hx : x.q = c <;> simp [List.filter_cons, hx, ih]

theorem length_insortEntry (x : AcceptEntry) (l : List AcceptEntry) :
    (insortEntry x l).length = l.length + 1 := by
  induction l with
  | nil => rfl
  | cons z zs ih =>
      by_cases h : x.q < z.q <;> simp [insortEntry, h, ih]

theorem length_sortEntries (l : List AcceptEntry) :
    (sortEntries l).length = l.length := by
  induction l with
  | nil => rfl
  | cons x xs ih => simp [sortEntries, length_insortEntry, ih]

theorem splitQA_quoted (delim qc : Char) (cs : List Char) (h : ∀ c ∈ cs, c ≠ qc) :
    ∀ cur, splitQA delim (some qc) (cs ++ [qc]) cur = [cur ++ cs ++ [qc]] := by
  induction cs with
  | nil => intro cur; simp [splitQA]
  | cons c cs' ih =>
      intro cur
      have hc : c ≠ qc := h c (List.mem_cons_self c cs')
      simp only [List.cons_append, splitQA, if_neg hc, List.append_eq]
      rw [ih (fun d hd => h d (List.mem_cons_of_mem c hd)) (cur ++ [c])]
      simp

theorem splitQA_open (delim c : Char) (hc : c = dquoteChar ∨ c = squoteChar)
    (cs cur : List Char) :
    splitQA delim none (c :: cs) cur = splitQA delim (some c) cs (cur ++ [c]) := by
  simp only [splitQA, if_pos hc]

/-!
Helper lemmas about normalization.
-/

theorem lookup_canonical (g : String → String) (t : String) :
    ∀ (L : List String) (m : String),
      (L.map g).find? (fun l => l == t) = some m →
      ∃ r, (L[(L.map g).indexOf m]? = some r ∧ r ∈ L ∧ g r = m) := by
  intro L
  induction L with
  | nil => intro m hm; simp at hm
  | cons x xs ih =>
      intro m hm
      rw [List.map_cons] at hm
      by_cases hx : g x = t
      · have hstep : List.find? (fun l => l == t) (g x :: List.map g xs) = some (g x) := by
          apply List.find?_cons_of_pos
          simp [hx]
        rw [hstep] at hm
        have hmx : m = g x := (Option.some_inj.mp hm).symm
        refine ⟨x, ?_, List.mem_cons_self x xs, hmx.symm⟩
        rw [List.map_cons, List.indexOf_cons_eq _ hmx.symm]
        simp
      · have hstep : List.find? (fun l => l == t) (g x :: List.map g xs) =
            List.find? (fun l => l == t) (List.map g xs) := by
          apply List.find?_cons_of_neg
          simp [hx]
        rw [hstep] at hm
        obtain ⟨r, hr1, hr2, hr3⟩ := ih m hm
        have hmt : m = t := by
          have := List.find?_some hm
          simpa using this
        have hne : g x ≠ m := fun hcon => hx (hcon.trans hmt)
        refine ⟨r, ?_, List.mem_cons_of_mem x hr2, hr3⟩
        rw [List.map_cons, List.indexOf_cons_ne _ hne]
        simpa using hr1

theorem find_lookup_mem {L : List String} {g : String → String} {t m r : String}
    (hfind : (L.map g).find? (fun l => l == t) = some m)
    (hget : L[(L.map g).indexOf m]? = some r) :
    r ∈ L ∧ g r = t := by
  obtain ⟨r', h1, h2, h3⟩ := lookup_canonical g t L m hfind
  have hrr : r' = r := by
    rw [hget] at h1
    exact (Option.some_inj.mp h1).symm
  have hmt : m = t := by
    have := List.find?_some hfind
    simpa using this
  exact ⟨hrr ▸ h2, by rw [← hrr, h3, hmt]⟩

theorem normalizeLanguage_hook_error {o : DetectorOptions} {s : String}
    {f : String → Except Unit String}
    (hcd : o.convertDetectedLanguage = some f) (hf : f (jsTrim s) = Except.error ()) :
    normalizeLanguage (JsVal.str s) o = none := by
  by_cases hs : s = ""
  · simp [normalizeLanguage, hs]
  · simp [normalizeLanguage, if_neg hs, hcd, hf]

theorem normalizeLanguage_trimEmpty_none {o : DetectorOptions} {s : String}
    (hcd : o.convertDetectedLanguage = none) (ht : jsTrim s = "") :
    normalizeLanguage (JsVal.str s) o = none := by
  by_cases hs : s = ""
  · simp [normalizeLanguage, hs]
  · simp only [normalizeLanguage, if_neg hs, hcd, ht]
    split
    · rfl
    · rename_i m heq
      have hm : m = (if o.ignoreCase then lowerString "" else "") := by
        have := List.find?_some heq
        simpa using this
      have hm0 : m = "" := by
        rw [hm]
        split <;> rfl
      rw [if_pos hm0]

theorem normalizeLanguage_str_some {o : DetectorOptions} {s r : String}
    (h : normalizeLanguage (JsVal.str s) o = some r) :
    r ≠ "" ∧ r ∈ o.supportedLanguages ∧
      foldCase o r = foldCase o (convertedCandidate o s) := by
  by_cases hs : s = ""
  · rw [hs] at h
    simp [normalizeLanguage] at h
  · simp only [normalizeLanguage, if_neg hs] at h
    split at h
    · cases h
    · rename_i n heq1
      split at h
      · cases h
      · rename_i m heq2
        split at h
        · cases h
        · rename_i hmne
          have hconv : n = convertedCandidate o s := by
            cases hcd : o.convertDetectedLanguage with
            | none =>
                rw [hcd] at heq1
                simp at heq1
                simp [convertedCandidate, hcd, heq1]
            | some f =>
                rw [hcd] at heq1
                simp at heq1
                simp [convertedCandidate, hcd, heq1]
          have hmem := find_lookup_mem heq2 h
          have hfold : foldCase o r =
              (if o.ignoreCase then lowerString n else n) := by
            have hg : (fun l => if o.ignoreCase then lowerString l else l) r =
                (if o.ignoreCase then lowerString n else n) := hmem.2
            simpa [foldCase] using hg
          refine ⟨?_, hmem.1, ?_⟩
          · intro hr0
            apply hmne
            have hmt : m = (if o.ignoreCase then lowerString n else n) := by
              have := List.find?_some heq2
              simpa using this
            rw [hmt, ← hfold, hr0]
            unfold foldCase
            split <;> rfl
          · rw [hfold, hconv]
            simp [foldCase]

theorem normalizeLanguage_str_none {o : DetectorOptions} {s : String} (hs : s ≠ "")
    (hnm : ∀ l ∈ o.supportedLanguages,
      foldCase o l ≠ foldCase o (convertedCandidate o s)) :
    normalizeLanguage (JsVal.str s) o = none := by
  simp only [normalizeLanguage, if_neg hs]
  split
  · rfl
  · rename_i n heq1
    have hconv : n = convertedCandidate o s := by
      cases hcd : o.convertDetectedLanguage with
      | none =>
          rw [hcd] at heq1
          simp at heq1
          simp [convertedCandidate, hcd, heq1]
      | some f =>
          rw [hcd] at heq1
          simp at heq1
          simp [convertedCandidate, hcd, heq1]
    split
    · rfl
    · rename_i m heq2
      split
      · rfl
      exfalso
      have hmemmap := List.mem_of_find?_eq_some heq2
      have hmt : m = (if o.ignoreCase then lowerString n else n) := by
        have := List.find?_some heq2
        simpa using this
      obtain ⟨l, hl, hgl⟩ := List.mem_map.mp hmemmap
      apply hnm l hl
      have : foldCase o l = m := by simpa [foldCase] using hgl
      rw [this, hmt, hconv]
      simp [foldCase]

/-!
Helper lemmas about the negotiation pipeline.
-/

theorem normalizeLanguage_mem {lang : JsVal} {o : DetectorOptions} {r : String}
    (h : normalizeLanguage lang o = some r) : r ∈ o.supportedLanguages := by
  cases lang with
  | undef => cases h
  | null => cases h
  | arr xs => cases h
  | str s => exact (normalizeLanguage_str_some h).2.1

theorem firstNormalized_mem {langs : List String} {o : DetectorOptions} {r : String}
    (h : firstNormalized langs o = some r) : r ∈ o.supportedLanguages := by
  induction langs with
  | nil => cases h
  | cons lang rest ih =>
      simp only [firstNormalized] at h
      split at h
      · rename_i n hn
        split at h
        · exact ih h
        · exact (Option.some_inj.mp h) ▸ normalizeLanguage_mem hn
      · exact ih h

theorem runDetector_mem {name : String} {ctx : Ctx} {o : DetectorOptions} {s : String}
    (h : runDetector name ctx o = Except.ok (some s)) : s ∈ o.supportedLanguages := by
  unfold runDetector at h
  split_ifs at h
  · exact normalizeLanguage_mem (Except.ok.inj h)
  · unfold detectFromCookie at h
    split_ifs at h
    split at h
    · cases h
    · simp at h
    · simp only [Except.ok.injEq] at h
      exact normalizeLanguage_mem h
    · exact normalizeLanguage_mem (Except.ok.inj h)
  · unfold detectFromHeader at h
    split at h
    · cases h
    · simp at h
    · split at h
      · simp at h
      · exact firstNormalized_mem (Except.ok.inj h)
  · exact normalizeLanguage_mem (Except.ok.inj h)

theorem detectLoop_mem {ctx : Ctx} {o : DetectorOptions} {s : String} :
    ∀ {names : List String}, detectLoop ctx o names = some s →
      s ∈ o.supportedLanguages := by
  intro names
  induction names with
  | nil => intro h; cases h
  | cons name rest ih =>
      intro h
      simp only [detectLoop] at h
      split at h
      · exact ih h
      · exact ih h
      · rename_i t hr
        split at h
        · exact ih h
        · exact (Option.some_inj.mp h) ▸ runDetector_mem hr

theorem cacheLanguage_writes (ctx : Ctx) (lang : String) (o : DetectorOptions) :
    cacheLanguage ctx lang o =
      if cachesArrayWithCookie o.caches then [(o.lookupCookie, lang)] else [] := by
  unfold cacheLanguage
  by_cases h : cachesArrayWithCookie o.caches
  · rw [if_pos h, if_pos h]
    cases ctx.setCookie o.lookupCookie lang <;> rfl
  · rw [if_neg h, if_neg h]

theorem truthy_of_arrayWithCookie {c : CachesVal} (h : cachesArrayWithCookie c = true) :
    cachesTruthy c = true := by
  cases c <;> simp_all [cachesArrayWithCookie, cachesTruthy]

theorem runDetector_setCookie (name : String) (ctx : Ctx)
    (f g : String → String → Except Unit Unit) (o : DetectorOptions) :
    runDetector name { ctx with setCookie := f } o =
      runDetector name { ctx with setCookie := g } o := rfl

theorem detectLoop_setCookie (ctx : Ctx) (f g : String → String → Except Unit Unit)
    (o : DetectorOptions) (names : List String) :
    detectLoop { ctx with setCookie := f } o names =
      detectLoop { ctx with setCookie := g } o names := by
  induction names with
  | nil => rfl
  | cons name rest ih =>
      simp only [detectLoop, runDetector_setCookie name ctx f g o, ih]

/-!
Claim theorems.
-/

/-- C1: every entry produced by the header-value parser carries a
quality in the closed interval from 0 to 1, and that quality is exactly
the one the quality policy derives from the entry's own recorded
parameters: 1 when no q parameter was accepted, when its value is empty
or when it cannot be interpreted as a number (including the not-a-number
token); otherwise the interpreted number clamped into the unit interval,
positive infinity becoming 1 and negative infinity 0. -/
theorem parseAccept_quality_clamped (s : Option String) (e : AcceptEntry)
    (he : e ∈ parseAccept s) :
    0 ≤ e.q ∧ e.q ≤ 1 ∧ e.q = resolveQuality (lookupParam e.params "q") := by
  have h3 : e.q = resolveQuality (lookupParam e.params "q") := by
    unfold parseAccept at he
    have hmem : e ∈ parseAcceptUnsorted s := mem_sortEntries.mp he
    cases s with
    | none => cases hmem
    | some h =>
        simp only [parseAcceptUnsorted] at hmem
        obtain ⟨c, hc, hpe⟩ := List.mem_map.mp hmem
        cases hsp : splitQuoteAware ';' c with
        | nil => rw [← hpe]; simp [parseEntry, hsp, lookupParam, resolveQuality]
        | cons t ps => rw [← hpe]; simp [parseEntry, hsp]
  refine ⟨?_, ?_, h3⟩
  · rw [h3]; exact (resolveQuality_mem_unit _).1
  · rw [h3]; exact (resolveQuality_mem_unit _).2

/-- Witness for C1 at the concrete header a;q=0.5. -/
theorem parseAccept_quality_clamped_witness :
    0 ≤ (AcceptEntry.mk "a" [("q", "0.5")] (mkRat 1 2)).q ∧
    (AcceptEntry.mk "a" [("q", "0.5")] (mkRat 1 2)).q ≤ 1 ∧
    (AcceptEntry.mk "a" [("q", "0.5")] (mkRat 1 2)).q =
      resolveQuality (lookupParam (AcceptEntry.mk "a" [("q", "0.5")] (mkRat 1 2)).params "q") :=
  parseAccept_quality_clamped (some "a;q=0.5")
    (AcceptEntry.mk "a" [("q", "0.5")] (mkRat 1 2)) (by decide)

/-- C5: the header-value parser is total over its input domain: an
absent or empty input yields the empty result rather than an error, the
output never holds more entries than the input has top-level chunks, and
adversarial inputs, injection-like patterns and unicode included, are
processed as opaque text with no evaluation. -/
theorem parseAccept_totality :
    parseAccept none = [] ∧
    parseAccept (some "") = [] ∧
    (∀ s : String, (parseAccept (some s)).length ≤ (splitQuoteAware ',' s.data).length) ∧
    (parseAccept (some "text/html\"><script>alert(1)</script>")).map (fun e => e.type) =
      ["text/html\"><script>alert(1)</script>"] ∧
    (parseAccept (some "type;q=0.9;drop table users")).map (fun e => (e.type, e.q)) =
      [("type", mkRat 9 10)] ∧
    (parseAccept (some "🌐/😊;param=🔥;q=0.9")).map
      (fun e => (e.type, lookupParam e.params "param")) = [("🌐/😊", some "🔥")] := by
  refine ⟨rfl, rfl, ?_, by decide, by decide, by decide⟩
  intro s
  unfold parseAccept parseAcceptUnsorted
  rw [length_sortEntries, List.length_map]
  exact List.length_filter_le _ _

/-- C6: the parser output is sorted by descending quality, and for every
quality value the entries carrying it appear exactly in the order of the
unsorted entry list, that is, their original left-to-right order of
appearance in the input (a stable sort); also verified on the four-way
tie and the mixed-priority headers of the test suite. -/
theorem parseAccept_sorted_stable (s : Option String) (c : ℚ) :
    (parseAccept s).Pairwise (fun a b => b.q ≤ a.q) ∧
    (parseAccept s).filter (fun e => decide (e.q = c)) =
      (parseAcceptUnsorted s).filter (fun e => decide (e.q = c)) ∧
    (parseAccept (some "a;q=0.9,b;q=0.9,c;q=0.9,d;q=0.9")).map (fun e => e.type) =
      ["a", "b", "c", "d"] ∧
    (parseAccept (some "d;q=0.8,b;q=0.9,c;q=0.8,a;q=0.9")).map (fun e => e.type) =
      ["b", "a", "d", "c"] :=
  ⟨pairwise_sortEntries _, filter_sortEntries _ c, by decide, by decide⟩

/-- C7: delimiter scanning is quote-aware for both quote characters: a
span opened by a double or a single quote is closed only by the next
occurrence of the same quote character, so neither a semicolon nor a
comma inside the span terminates the current token, and the quoted
content is carried to the output verbatim, quotes included, as on the
concrete double-quoted and single-quoted parameters d. -/
theorem parseAccept_quote_aware (qc : Char) (hq : qc = dquoteChar ∨ qc = squoteChar)
    (cs : List Char) (h : qc ∉ cs) :
    splitQuoteAware ';' (qc :: cs ++ [qc]) = [qc :: cs ++ [qc]] ∧
    splitQuoteAware ',' (qc :: cs ++ [qc]) = [qc :: cs ++ [qc]] ∧
    (parseAccept (some "type;d=\"semi;colon\"")).map (fun e => (e.type, e.params)) =
      [("type", [("d", "\"semi;colon\"")])] ∧
    (parseAccept (some squoteHeader)).map (fun e => (e.type, e.params)) =
      [("type", [("d", squoteValue)])] := by
  have key : ∀ delim : Char,
      splitQuoteAware delim (qc :: cs ++ [qc]) = [qc :: cs ++ [qc]] := by
    intro delim
    unfold splitQuoteAware
    simp only [List.cons_append]
    rw [splitQA_open delim qc hq (cs ++ [qc]) []]
    simp only [List.nil_append]
    rw [splitQA_quoted delim qc cs (fun d hd hcon => h (hcon ▸ hd)) [qc]]
    simp
  exact ⟨key ';', key ',', by decide, by decide⟩

/-- Witness for C7 at the concrete single-quoted span of the test
suite. -/
theorem parseAccept_quote_aware_witness :
    splitQuoteAware ';' (squoteChar :: ("semi;colon".data) ++ [squoteChar]) =
      [squoteChar :: ("semi;colon".data) ++ [squoteChar]] :=
  (parseAccept_quote_aware squoteChar (Or.inr rfl) ("semi;colon".data) (by decide)).1

/-- C2: the negotiation pipeline iterates the configured strategies in
order: a strategy that raises is caught and the loop proceeds with the
remaining strategies, a strategy yielding nothing likewise, the first
strategy yielding a non-empty normalized language short-circuits the
loop and its value is adopted as the detected result, and when the loop
exhausts the result is the configured fallback language and is not
treated as detected. -/
theorem detectLanguage_pipeline (ctx : Ctx) (o : DetectorOptions)
    (name : String) (rest : List String) :
    (runDetector name ctx o = Except.error () →
      detectLoop ctx o (name :: rest) = detectLoop ctx o rest) ∧
    (runDetector name ctx o = Except.ok none →
      detectLoop ctx o (name :: rest) = detectLoop ctx o rest) ∧
    (∀ s, s ≠ "" → runDetector name ctx o = Except.ok (some s) →
      detectLoop ctx o (name :: rest) = some s) ∧
    (∀ s, detectLoop ctx o o.order = some s →
      (detectLanguage ctx o).language = s ∧ (detectLanguage ctx o).detected = true) ∧
    (detectLoop ctx o o.order = none →
      (detectLanguage ctx o).language = o.fallbackLanguage ∧
      (detectLanguage ctx o).detected = false) := by
  refine ⟨?_, ?_, ?_, ?_, ?_⟩
  · intro h; simp [detectLoop, h]
  · intro h; simp [detectLoop, h]
  · intro s hs h; simp [detectLoop, h, hs]
  · intro s h; simp [detectLanguage, h]
  · intro h; simp [detectLanguage, h]

/-- Witness for C2: on the fixture request the querystring strategy
yields fr and short-circuits the default order. -/
theorem detectLanguage_pipeline_witness :
    detectLoop fixtureCtx fixtureOpts ("querystring" :: ["cookie", "header"]) = some "fr" :=
  (detectLanguage_pipeline fixtureCtx fixtureOpts "querystring" ["cookie", "header"]).2.2.1
    "fr" (by decide) rfl

/-- C3: the cookie write is attempted exactly when a language was
actively detected and the caches option is an array-shaped value
containing the cookie kind; it is then exactly one write of the detected
language under the configured cookie key; and the behavior of the
write collaborator, a raising one included, never changes the pipeline
result. -/
theorem detectLanguage_cache_policy (ctx : Ctx) (o : DetectorOptions) :
    ((detectLanguage ctx o).writes ≠ [] ↔
      (detectLanguage ctx o).detected = true ∧ cachesArrayWithCookie o.caches = true) ∧
    ((detectLanguage ctx o).detected = true → cachesArrayWithCookie o.caches = true →
      (detectLanguage ctx o).writes =
        [(o.lookupCookie, (detectLanguage ctx o).language)]) ∧
    (∀ f g, detectLanguage { ctx with setCookie := f } o =
      detectLanguage { ctx with setCookie := g } o) := by
  have hset : ∀ f g, detectLanguage { ctx with setCookie := f } o =
      detectLanguage { ctx with setCookie := g } o := by
    intro f g
    have hl := detectLoop_setCookie ctx f g o o.order
    simp [detectLanguage, hl, cacheLanguage_writes]
  refine ⟨?_, ?_, hset⟩
  · cases hd : detectLoop ctx o o.order with
    | none => simp [detectLanguage, hd]
    | some s =>
        by_cases hc : cachesArrayWithCookie o.caches = true
        · simp [detectLanguage, hd, cacheLanguage_writes, hc, truthy_of_arrayWithCookie hc]
        · simp [detectLanguage, hd, cacheLanguage_writes, hc]
  · cases hd : detectLoop ctx o o.order with
    | none => simp [detectLanguage, hd]
    | some s =>
        intro _ hc
        simp [detectLanguage, hd, cacheLanguage_writes, hc, truthy_of_arrayWithCookie hc]

/-- Witness for C3: the fixture request detects fr from the query and
the default cookie cache records exactly one write of it. -/
theorem detectLanguage_cache_policy_witness :
    (detectLanguage fixtureCtx fixtureOpts).writes =
      [("language", (detectLanguage fixtureCtx fixtureOpts).language)] :=
  (detectLanguage_cache_policy fixtureCtx fixtureOpts).2.1 rfl rfl

/-- C4 counterexample: a whitespace-only candidate does not always
normalize to absent, contrary to the claim: the candidate is trimmed to
the empty string and then handed to the configured conversion hook, so a
hook converting the empty candidate into a supported name makes the
whitespace-only candidate normalize to that name. -/
theorem normalizeLanguage_whitespace_counterexample :
    normalizeLanguage (JsVal.str "   ") fixtureOptsEmptyHook = some "en" := rfl

/-- C4 amended: normalization returns absent for an absent, null, empty
or array-shaped candidate; a whitespace-only candidate is trimmed to the
empty string before the conversion hook and comparison, so without a
configured hook it is absent (a matched empty entry is still rejected by
the final truthiness check), but a configured hook may convert it into a
supported name, which is then returned; if a configured hook raises, the
normalization returns absent rather than propagating; otherwise the
trimmed, possibly hook-converted candidate is compared against the
supported set, case-folded on both sides when configured, and on a match
the exact, necessarily non-empty, string stored in the supported set is
returned, with absent on no match. -/
theorem normalizeLanguage_contract (o : DetectorOptions) :
    normalizeLanguage JsVal.undef o = none ∧
    normalizeLanguage JsVal.null o = none ∧
    normalizeLanguage (JsVal.str "") o = none ∧
    (∀ xs, normalizeLanguage (JsVal.arr xs) o = none) ∧
    (∀ s, o.convertDetectedLanguage = none → jsTrim s = "" →
      normalizeLanguage (JsVal.str s) o = none) ∧
    (∀ s f, o.convertDetectedLanguage = some f → f (jsTrim s) = Except.error () →
      normalizeLanguage (JsVal.str s) o = none) ∧
    (∀ s r, normalizeLanguage (JsVal.str s) o = some r →
      r ≠ "" ∧ r ∈ o.supportedLanguages ∧
        foldCase o r = foldCase o (convertedCandidate o s)) ∧
    (∀ s, s ≠ "" →
      (∀ l ∈ o.supportedLanguages, foldCase o l ≠ foldCase o (convertedCandidate o s)) →
      normalizeLanguage (JsVal.str s) o = none) :=
  ⟨rfl, rfl, by simp [normalizeLanguage], fun _ => rfl,
    fun _ hcd ht => normalizeLanguage_trimEmpty_none hcd ht,
    fun _ _ hcd hf => normalizeLanguage_hook_error hcd hf,
    fun _ _ h => normalizeLanguage_str_some h,
    fun _ hs hnm => normalizeLanguage_str_none hs hnm⟩

/-- Witness for the amended C4: with the fixture options a candidate
with surrounding whitespace and different casing canonicalizes to the
stored, non-empty entry fr. -/
theorem normalizeLanguage_contract_witness :
    ("fr" : String) ≠ "" ∧ ("fr" : String) ∈ fixtureOpts.supportedLanguages ∧
    foldCase fixtureOpts "fr" = foldCase fixtureOpts (convertedCandidate fixtureOpts " FR ") :=
  (normalizeLanguage_contract fixtureOpts).2.2.2.2.2.2.1 " FR " "fr" rfl

theorem validateOptions_cases (o : DetectorOptions) :
    (validateOptions o = Except.ok () ↔
      (o.fallbackLanguage ∈ o.supportedLanguages ∧ 0 ≤ o.lookupFromPathIndex ∧
        ∀ d ∈ o.order, d ∈ detectorNames)) ∧
    (o.fallbackLanguage ∉ o.supportedLanguages →
      validateOptions o =
        Except.error "Fallback language must be included in supported languages") ∧
    (o.fallbackLanguage ∈ o.supportedLanguages → o.lookupFromPathIndex < 0 →
      validateOptions o = Except.error "Path index must be non-negative") ∧
    (o.fallbackLanguage ∈ o.supportedLanguages → 0 ≤ o.lookupFromPathIndex →
      ¬(∀ d ∈ o.order, d ∈ detectorNames) →
      validateOptions o = Except.error "Invalid detector type in order array") := by
  by_cases h1 : o.fallbackLanguage ∈ o.supportedLanguages
  · by_cases h2 : o.lookupFromPathIndex < 0
    · have hv : validateOptions o = Except.error "Path index must be non-negative" := by
        simp [validateOptions, h1, h2]
      refine ⟨?_, fun hni => absurd h1 hni, fun _ _ => hv,
        fun _ hge _ => absurd h2 (not_lt.mpr hge)⟩
      rw [hv]
      exact iff_of_false (by simp) (fun hc => absurd h2 (not_lt.mpr hc.2.1))
    · by_cases h3 : ∀ d ∈ o.order, d ∈ detectorNames
      · have hv : validateOptions o = Except.ok () := by
          simp [validateOptions, h1, h2, h3]
          exact h3
        refine ⟨?_, fun hni => absurd h1 hni, fun _ hlt => absurd hlt h2,
          fun _ _ hno => absurd h3 hno⟩
        rw [hv]
        exact iff_of_true rfl ⟨h1, not_lt.mp h2, h3⟩
      · have hv : validateOptions o =
            Except.error "Invalid detector type in order array" := by
          simp [validateOptions, h1, h2, h3]
        refine ⟨?_, fun hni => absurd h1 hni, fun _ hlt => absurd hlt h2,
          fun _ _ _ => hv⟩
        rw [hv]
        exact iff_of_false (by simp) (fun hc => h3 hc.2.2)
  · have hv : validateOptions o =
        Except.error "Fallback language must be included in supported languages" := by
      simp [validateOptions, h1]
    refine ⟨?_, fun _ => hv, fun hmem _ => absurd hmem h1, fun hmem _ _ => absurd hmem h1⟩
    rw [hv]
    exact iff_of_false (by simp) (fun hc => absurd hc.1 h1)

/-- C8: middleware construction fails fast: the constructor hands out a
middleware exactly when the merged configuration has a supported
fallback, a non-negative path index and only recognized strategy
identifiers, and each violation is reported as the corresponding
construction error before any request is processed. -/
theorem language_validation (u : UserOptions) :
    (isOkE (language u) = true ↔
      ((mergeOptions u).fallbackLanguage ∈ (mergeOptions u).supportedLanguages ∧
        0 ≤ (mergeOptions u).lookupFromPathIndex ∧
        ∀ d ∈ (mergeOptions u).order, d ∈ detectorNames)) ∧
    ((mergeOptions u).fallbackLanguage ∉ (mergeOptions u).supportedLanguages →
      language u =
        Except.error "Fallback language must be included in supported languages") ∧
    ((mergeOptions u).fallbackLanguage ∈ (mergeOptions u).supportedLanguages →
      (mergeOptions u).lookupFromPathIndex < 0 →
      language u = Except.error "Path index must be non-negative") ∧
    ((mergeOptions u).fallbackLanguage ∈ (mergeOptions u).supportedLanguages →
      0 ≤ (mergeOptions u).lookupFromPathIndex →
      ¬(∀ d ∈ (mergeOptions u).order, d ∈ detectorNames) →
      language u = Except.error "Invalid detector type in order array") := by
  obtain ⟨hiff, he1, he2, he3⟩ := validateOptions_cases (mergeOptions u)
  refine ⟨?_, ?_, ?_, ?_⟩
  · cases hv : validateOptions (mergeOptions u) with
    | error e =>
        simp only [language, hv, isOkE]
        constructor
        · intro h; cases h
        · intro hc
          have := hiff.mpr hc
          rw [hv] at this
          cases this
    | ok v =>
        cases v
        simp only [language, hv, isOkE]
        constructor
        · intro _
          exact hiff.mp hv
        · intro _
          trivial
  · intro hni
    simp [language, he1 hni]
  · intro hmem hlt
    simp [language, he2 hmem hlt]
  · intro hmem hge hno
    simp [language, he3 hmem hge hno]

/-- Witness for C8: an unsupported fallback is rejected at construction
with the corresponding error. -/
theorem language_validation_witness :
    language fixtureBadOptions =
      Except.error "Fallback language must be included in supported languages" :=
  (language_validation fixtureBadOptions).2.1 (by decide)

/-- C9: under a configuration that passed validation, the language the
pipeline produces for any request is a member of the configured
supported set: a detected result comes out of normalization, which
canonicalizes into the supported set, and the fallback is itself
validated at construction. -/
theorem middleware_language_supported (o : DetectorOptions) (ctx : Ctx) (r : DetectResult)
    (hv : validateOptions o = Except.ok ())
    (hr : languageMiddleware o ctx = Except.ok r) :
    r.language ∈ o.supportedLanguages := by
  unfold languageMiddleware at hr
  split_ifs at hr
  have hr' : r = detectLanguage ctx o := (Except.ok.inj hr).symm
  subst hr'
  show (detectLoop ctx o o.order).getD o.fallbackLanguage ∈ o.supportedLanguages
  cases hd : detectLoop ctx o o.order with
  | some s =>
      simp only [Option.getD_some]
      exact detectLoop_mem hd
  | none =>
      simp only [Option.getD_none]
      by_cases h1 : o.fallbackLanguage ∈ o.supportedLanguages
      · exact h1
      · simp [validateOptions, h1] at hv

/-- Witness for C9: the default configuration on the fixture request
falls back to en, which is in the supported set. -/
theorem middleware_language_supported_witness :
    (DetectResult.mk "en" false []).language ∈ DEFAULT_OPTIONS.supportedLanguages :=
  middleware_language_supported DEFAULT_OPTIONS fixtureCtx
    (DetectResult.mk "en" false []) rfl rfl

/-- C10: on every request the middleware demands the cookie read and
write capabilities before any strategy runs and raises a server-side 500
when either is absent, for every configuration, including ones whose
strategy order contains no cookie strategy and whose caching is
disabled; with both capabilities present it proceeds to the pipeline. -/
theorem middleware_requires_cookie_plugin (o : DetectorOptions) (ctx : Ctx) :
    ((ctx.hasGetCookie = false ∨ ctx.hasSetCookie = false) →
      languageMiddleware o ctx = Except.error 500) ∧
    (ctx.hasGetCookie = true → ctx.hasSetCookie = true →
      languageMiddleware o ctx = Except.ok (detectLanguage ctx o)) := by
  constructor
  · rintro (h | h) <;> simp [languageMiddleware, h]
  · intro h1 h2; simp [languageMiddleware, h1, h2]

/-- Witness for C10: a cookie-free configuration still raises the 500
when the cookie plugin is missing. -/
theorem middleware_requires_cookie_plugin_witness :
    languageMiddleware fixtureOptsNoCookie fixtureCtxNoPlugin = Except.error 500 :=
  (middleware_requires_cookie_plugin fixtureOptsNoCookie fixtureCtxNoPlugin).1 (Or.inl rfl)
